import Mathlib

/-!
Shallow embedding of the asynchronous task-orchestration examples of this
repository (the parallel runner `runTasksInParallel` of `scaler.js`, the
sequential callback-chain pattern, and the callback/promise pair
`asyncFunctionWithCallback` / `promisifiedAsyncFunction`), together with
theorems settling the specification's claims about them.

Modelling conventions: a simulated task is its `setTimeout` delay together
with the outcome it delivers to its completion callback (`callback(err)` or
`callback(null, result)`), encoded as `Except`.  The single-threaded
event-driven host is modelled by an explicit event order: all synchronous
work of a function body happens first, then timers fire in increasing-delay
order (stable for equal delays), each delivering one completion event.
Callback invocations are recorded in a list so that "called exactly once"
is the length of that list.
-/

/-- `asyncFunctionWithCallback(arg, callback)` from the source: after a
simulated delay it invokes `callback('Error: Argument must be non-negative')`
when `arg < 0`, and `callback(null, `Success: The result is ${arg * 2}`)`
otherwise.  The two callback parameters are modelled as `Option`s, `none`
standing for JavaScript `null`/`undefined`. -/
def asyncFunctionWithCallback {α : Type} (arg : Int)
    (callback : Option String → Option String → α) : α :=
  if arg < 0 then
    callback (some "Error: Argument must be non-negative") none
  else
    callback none (some ("Success: The result is " ++ toString (arg * 2)))

/-- `promisifiedAsyncFunction(arg)` from the source: wraps
`asyncFunctionWithCallback` in a promise, rejecting with the error when the
callback receives a truthy error and resolving with the result otherwise.
The eventual settled state of the promise is the `Except` value. -/
def promisifiedAsyncFunction (arg : Int) : Except String String :=
  asyncFunctionWithCallback arg (fun error result =>
    match error with
    | some e => Except.error e
    | none => Except.ok (result.getD ""))

deriving instance DecidableEq for Except

/-- A simulated asynchronous task: its `setTimeout` delay in milliseconds and
the outcome it delivers to its completion callback. -/
structure SimTask (E V : Type) where
  delay : Nat
  outcome : Except E V
deriving DecidableEq, Repr

/-- Observable events of a run: a task starting (its synchronous side
effects begin), a task's completion callback firing with its outcome, and an
invocation of the run's final callback. -/
inductive Event (E V : Type) where
  | start (i : Nat)
  | complete (i : Nat) (out : Except E V)
  | callbackCall (r : Except E (List V))
deriving DecidableEq, Repr

/-- The mutable state closed over by `runTasksInParallel` in `scaler.js`:
`completedTasks`, the `results` array, `totalTasks`, plus a record of every
invocation of the final `callback` (so that invocation counts are
observable). -/
structure RunState (E V : Type) where
  completedTasks : Nat
  results : List V
  totalTasks : Nat
  callbackCalls : List (Except E (List V))
deriving DecidableEq, Repr

/-- The fresh state at the start of `runTasksInParallel`:
`completedTasks = 0`, `results = []`, and no callback invocation yet.
In the source `totalTasks` is fixed at `3`; here it is the parameter `n`. -/
def initState {E V : Type} (n : Nat) : RunState E V :=
  { completedTasks := 0, results := [], totalTasks := n, callbackCalls := [] }

/-- `onTaskComplete(error, result)` from `scaler.js` lines 38-52, acting on
one completion event.  On an error it invokes `callback(error)` and returns
(no push, no increment).  On a success it pushes the result, increments
`completedTasks`, and when the counter reaches `totalTasks` invokes
`callback(null, results)`. -/
def onTaskComplete {E V : Type} (st : RunState E V) (ev : Except E V) :
    RunState E V :=
  match ev with
  | Except.error e =>
      { st with callbackCalls := st.callbackCalls ++ [Except.error e] }
  | Except.ok result =>
      if st.completedTasks + 1 = st.totalTasks then
        { completedTasks := st.completedTasks + 1,
          results := st.results ++ [result],
          totalTasks := st.totalTasks,
          callbackCalls :=
            st.callbackCalls ++ [Except.ok (st.results ++ [result])] }
      else
        { completedTasks := st.completedTasks + 1,
          results := st.results ++ [result],
          totalTasks := st.totalTasks, callbackCalls := st.callbackCalls }

/-- Process a list of completion events in arrival order through
`onTaskComplete`. -/
def processEvents {E V : Type} (st : RunState E V)
    (evs : List (Except E V)) : RunState E V :=
  evs.foldl onTaskComplete st

/-- Insert a registered timer (original index paired with its task) into a
delay-sorted timer queue, after all timers with a smaller-or-equal delay
already present — the host's timer queue is stable. -/
def insertTimer {E V : Type} (x : Nat × SimTask E V) :
    List (Nat × SimTask E V) → List (Nat × SimTask E V)
  | [] => [x]
  | y :: ys =>
      if x.2.delay ≤ y.2.delay then x :: y :: ys else y :: insertTimer x ys

/-- The order in which the registered timers fire: sorted by increasing
delay, stably. -/
def fireOrder {E V : Type} :
    List (Nat × SimTask E V) → List (Nat × SimTask E V)
  | [] => []
  | x :: xs => insertTimer x (fireOrder xs)

/-- The arrival order of the tasks' completion events, determined by each
task's own delay. -/
def completionEvents {E V : Type} (tasks : List (SimTask E V)) :
    List (Except E V) :=
  (fireOrder tasks.enum).map (fun p => p.2.outcome)

/-- `runTasksInParallel` from `scaler.js`: start all tasks, then let each
completion event be handled by `onTaskComplete` in arrival order.  The
source fixes three concrete tasks and `totalTasks = 3`; here the task list
is the parameter and `totalTasks` is its length, with the per-event logic
kept exactly as in the source. -/
def runTasksInParallel {E V : Type} (tasks : List (SimTask E V)) :
    RunState E V :=
  processEvents (initState tasks.length) (completionEvents tasks)

/-- The event trace of a parallel run: the function body synchronously
starts every task in source order (registering its timer), and only then do
the timers fire, delivering the completion events. -/
def runParallelTrace {E V : Type} (tasks : List (SimTask E V)) :
    List (Event E V) :=
  (tasks.enum.map (fun p => Event.start p.1)) ++
    ((fireOrder tasks.enum).map (fun p => Event.complete p.1 p.2.outcome))

/-- Modelled from the spec: the general `runSequential` orchestrator, which
the repository only exhibits as hardcoded nested callback chains
(`fetchData`/`processData`/`saveData`).  Task `i` starts; when its
completion continuation fires with a success the next task is started from
within that continuation with the value accumulated, and when it fires with
an error the chain stops there (no further task is started) and the final
continuation receives the error; when the chain is exhausted the final
continuation receives the accumulated values. -/
def runSeqFrom {E V : Type} :
    List (Except E V) → Nat → List V → List (Event E V)
  | [], _, acc => [Event.callbackCall (Except.ok acc)]
  | Except.error e :: _, i, _ =>
      [Event.start i, Event.complete i (Except.error e),
        Event.callbackCall (Except.error e)]
  | Except.ok v :: rest, i, acc =>
      Event.start i :: Event.complete i (Except.ok v) ::
        runSeqFrom rest (i + 1) (acc ++ [v])

/-- Modelled from the spec: a full sequential run over the tasks' outcomes,
starting from task index `0` with an empty accumulator. -/
def runSequential {E V : Type} (tasks : List (Except E V)) :
    List (Event E V) :=
  runSeqFrom tasks 0 []

/-- The final-callback invocations recorded in a trace. -/
def callsOf {E V : Type} (tr : List (Event E V)) :
    List (Except E (List V)) :=
  tr.filterMap (fun e =>
    match e with
    | Event.callbackCall r => some r
    | _ => none)

/-- The final-callback invocations of a sequential run. -/
def seqCalls {E V : Type} (tasks : List (Except E V)) :
    List (Except E (List V)) :=
  callsOf (runSequential tasks)

/-- The error payloads among a list of completion events, in arrival
order. -/
def errorsOf {E V : Type} (evs : List (Except E V)) : List E :=
  evs.filterMap (fun ev =>
    match ev with
    | Except.error e => some e
    | Except.ok _ => none)

/-- The success payloads among a list of completion events, in arrival
order. -/
def okValues {E V : Type} (evs : List (Except E V)) : List V :=
  evs.filterMap (fun ev =>
    match ev with
    | Except.ok v => some v
    | Except.error _ => none)

/-- Number of error completions among a list of events. -/
def countErrors {E V : Type} (evs : List (Except E V)) : Nat :=
  (errorsOf evs).length

/-- Number of success completions among a list of events. -/
def countOks {E V : Type} (evs : List (Except E V)) : Nat :=
  (okValues evs).length

/-- Checks, given the number of tasks currently in flight, that no point of
the trace ever has two tasks in flight at once: every `start` must happen
with zero tasks in flight. -/
def inFlightBound {E V : Type} : List (Event E V) → Nat → Bool
  | [], _ => true
  | Event.start _ :: rest, cur => (cur == 0) && inFlightBound rest (cur + 1)
  | Event.complete _ _ :: rest, cur => inFlightBound rest (cur - 1)
  | Event.callbackCall _ :: rest, cur => inFlightBound rest cur

/-- The spec's concrete scenario for the parallel runner: three tasks with
latencies 1000 ms, 500 ms, 1500 ms succeeding with values "A", "B", "C". -/
def scenarioTasks : List (SimTask String String) :=
  [⟨1000, Except.ok "A"⟩, ⟨500, Except.ok "B"⟩, ⟨1500, Except.ok "C"⟩]

/-- A parallel run of three tasks where the 500 ms and 1000 ms tasks fail
and the 1500 ms task succeeds. -/
def twoFailuresOneSuccess : List (SimTask String String) :=
  [⟨500, Except.error "boom1"⟩, ⟨1000, Except.error "boom2"⟩,
    ⟨1500, Except.ok "v"⟩]

/-- A parallel run of two tasks that both fail, the 500 ms one first. -/
def twoFailures : List (SimTask String String) :=
  [⟨500, Except.error "boom"⟩, ⟨1000, Except.error "crash"⟩]

/-- A single failing completion event, used to instantiate theorems. -/
def witnessErrEvs : List (Except String String) := [Except.error "e"]

/-- One failing then one successful completion event, used to instantiate
theorems. -/
def witnessMixedEvs : List (Except String String) :=
  [Except.error "e", Except.ok "v"]

/-- Two successful sequential tasks, used to instantiate theorems. -/
def seqWitnessTasks : List (Except String String) :=
  [Except.ok "a", Except.ok "b"]

/-! ### Basic equations and counting lemmas -/

theorem processEvents_nil {E V : Type} (st : RunState E V) :
    processEvents st [] = st := rfl

theorem processEvents_cons {E V : Type} (st : RunState E V) (ev : Except E V)
    (evs : List (Except E V)) :
    processEvents st (ev :: evs) = processEvents (onTaskComplete st ev) evs :=
  rfl

theorem onTaskComplete_error_eq {E V : Type} (st : RunState E V) (e : E) :
    onTaskComplete st (Except.error e) =
      { st with callbackCalls := st.callbackCalls ++ [Except.error e] } := rfl

theorem onTaskComplete_ok_eq {E V : Type} (st : RunState E V) (v : V) :
    onTaskComplete st (Except.ok v) =
      if st.completedTasks + 1 = st.totalTasks then
        { completedTasks := st.completedTasks + 1,
          results := st.results ++ [v],
          totalTasks := st.totalTasks,
          callbackCalls :=
            st.callbackCalls ++ [Except.ok (st.results ++ [v])] }
      else
        { completedTasks := st.completedTasks + 1,
          results := st.results ++ [v],
          totalTasks := st.totalTasks,
          callbackCalls := st.callbackCalls } := rfl

theorem okValues_cons_ok {E V : Type} (v : V) (evs : List (Except E V)) :
    okValues (Except.ok v :: evs) = v :: okValues evs := by
  simp [okValues]

theorem okValues_cons_error {E V : Type} (e : E) (evs : List (Except E V)) :
    okValues (Except.error e :: evs) = okValues evs := by
  simp [okValues]

theorem errorsOf_cons_ok {E V : Type} (v : V) (evs : List (Except E V)) :
    errorsOf (Except.ok v :: evs) = errorsOf evs := by
  simp [errorsOf]

theorem errorsOf_cons_error {E V : Type} (e : E) (evs : List (Except E V)) :
    errorsOf (Except.error e :: evs) = e :: errorsOf evs := by
  simp [errorsOf]

theorem countOks_cons_ok {E V : Type} (v : V) (evs : List (Except E V)) :
    countOks (Except.ok v :: evs) = countOks evs + 1 := by
  simp [countOks, okValues_cons_ok]

theorem countOks_cons_error {E V : Type} (e : E) (evs : List (Except E V)) :
    countOks (Except.error e :: evs) = countOks evs := by
  simp [countOks, okValues_cons_error]

theorem countErrors_cons_ok {E V : Type} (v : V) (evs : List (Except E V)) :
    countErrors (Except.ok v :: evs) = countErrors evs := by
  simp [countErrors, errorsOf_cons_ok]

theorem countErrors_cons_error {E V : Type} (e : E) (evs : List (Except E V)) :
    countErrors (Except.error e :: evs) = countErrors evs + 1 := by
  simp [countErrors, errorsOf_cons_error]

theorem countOks_add_countErrors {E V : Type} :
    ∀ evs : List (Except E V), countOks evs + countErrors evs = evs.length := by
  intro evs
  induction evs with
  | nil => rfl
  | cons ev rest ih =>
    cases ev with
    | error e =>
      rw [countOks_cons_error, countErrors_cons_error, List.length_cons]
      omega
    | ok v =>
      rw [countOks_cons_ok, countErrors_cons_ok, List.length_cons]
      omega

theorem eq_map_ok_of_countErrors_zero {E V : Type} :
    ∀ evs : List (Except E V), countErrors evs = 0 →
      evs = (okValues evs).map Except.ok := by
  intro evs
  induction evs with
  | nil => intro _; rfl
  | cons ev rest ih =>
    intro h
    cases ev with
    | error e => rw [countErrors_cons_error] at h; omega
    | ok v =>
      rw [okValues_cons_ok, List.map_cons]
      rw [countErrors_cons_ok] at h
      rw [← ih h]

theorem okValues_map_ok {E V : Type} (vs : List V) :
    okValues ((vs.map Except.ok : List (Except E V))) = vs := by
  induction vs with
  | nil => rfl
  | cons v vs ih => rw [List.map_cons, okValues_cons_ok, ih]

/-! ### State-evolution lemmas for the parallel runner -/

theorem processEvents_totalTasks {E V : Type} :
    ∀ (evs : List (Except E V)) (st : RunState E V),
      (processEvents st evs).totalTasks = st.totalTasks := by
  intro evs
  induction evs with
  | nil => intro st; rfl
  | cons ev rest ih =>
    intro st
    rw [processEvents_cons, ih]
    cases ev with
    | error e => rfl
    | ok v => rw [onTaskComplete_ok_eq]; split <;> rfl

theorem processEvents_completedTasks {E V : Type} :
    ∀ (evs : List (Except E V)) (st : RunState E V),
      (processEvents st evs).completedTasks =
        st.completedTasks + countOks evs := by
  intro evs
  induction evs with
  | nil => intro st; simp [processEvents, countOks, okValues]
  | cons ev rest ih =>
    intro st
    rw [processEvents_cons, ih]
    cases ev with
    | error e => rw [onTaskComplete_error_eq, countOks_cons_error]
    | ok v =>
      rw [onTaskComplete_ok_eq, countOks_cons_ok]
      split
      all_goals simp only []
      all_goals omega

theorem processEvents_results {E V : Type} :
    ∀ (evs : List (Except E V)) (st : RunState E V),
      (processEvents st evs).results = st.results ++ okValues evs := by
  intro evs
  induction evs with
  | nil => intro st; simp [processEvents, okValues]
  | cons ev rest ih =>
    intro st
    rw [processEvents_cons, ih]
    cases ev with
    | error e => rw [onTaskComplete_error_eq, okValues_cons_error]
    | ok v =>
      rw [onTaskComplete_ok_eq, okValues_cons_ok]
      split
      all_goals simp

theorem processEvents_callbackCalls_lt {E V : Type} :
    ∀ (evs : List (Except E V)) (st : RunState E V),
      st.completedTasks + countOks evs < st.totalTasks →
      (processEvents st evs).callbackCalls =
        st.callbackCalls ++ (errorsOf evs).map Except.error := by
  intro evs
  induction evs with
  | nil => intro st h; simp [processEvents, errorsOf]
  | cons ev rest ih =>
    intro st h
    cases ev with
    | error e =>
      rw [processEvents_cons, onTaskComplete_error_eq]
      rw [countOks_cons_error] at h
      rw [ih { st with callbackCalls := st.callbackCalls ++ [Except.error e] }
        (by show st.completedTasks + countOks rest < st.totalTasks; exact h)]
      rw [errorsOf_cons_error]
      simp
    | ok v =>
      rw [countOks_cons_ok] at h
      rw [processEvents_cons, onTaskComplete_ok_eq, if_neg (by omega)]
      have h2 := ih
        { completedTasks := st.completedTasks + 1,
          results := st.results ++ [v], totalTasks := st.totalTasks,
          callbackCalls := st.callbackCalls }
        (by show st.completedTasks + 1 + countOks rest < st.totalTasks; omega)
      rw [h2, errorsOf_cons_ok]

theorem processEvents_all_ok {E V : Type} :
    ∀ (vs : List V) (st : RunState E V), vs ≠ [] →
      st.completedTasks + vs.length = st.totalTasks →
      (processEvents st (vs.map Except.ok)).callbackCalls =
        st.callbackCalls ++ [Except.ok (st.results ++ vs)] := by
  intro vs
  induction vs with
  | nil => intro st h _; exact absurd rfl h
  | cons v vs ih =>
    intro st _ htot
    rw [List.map_cons, processEvents_cons, onTaskComplete_ok_eq]
    cases vs with
    | nil =>
      rw [if_pos (by simp at htot; omega)]
      simp [processEvents]
    | cons w ws =>
      rw [if_neg (by simp at htot; omega)]
      have h2 := ih
        { completedTasks := st.completedTasks + 1,
          results := st.results ++ [v], totalTasks := st.totalTasks,
          callbackCalls := st.callbackCalls }
        (by simp)
        (by show st.completedTasks + 1 + (w :: ws).length = st.totalTasks
            simp at htot ⊢; omega)
      rw [h2]
      simp

/-! ### Lemmas for the sequential runner -/

theorem runSeqFrom_nil {E V : Type} (i : Nat) (acc : List V) :
    runSeqFrom ([] : List (Except E V)) i acc =
      [Event.callbackCall (Except.ok acc)] := rfl

theorem runSeqFrom_cons_error {E V : Type} (e : E) (rest : List (Except E V))
    (i : Nat) (acc : List V) :
    runSeqFrom (Except.error e :: rest) i acc =
      [Event.start i, Event.complete i (Except.error e),
        Event.callbackCall (Except.error e)] := rfl

theorem runSeqFrom_cons_ok {E V : Type} (v : V) (rest : List (Except E V))
    (i : Nat) (acc : List V) :
    runSeqFrom (Except.ok v :: rest) i acc =
      Event.start i :: Event.complete i (Except.ok v) ::
        runSeqFrom rest (i + 1) (acc ++ [v]) := rfl

theorem callsOf_cons_start {E V : Type} (i : Nat) (tr : List (Event E V)) :
    callsOf (Event.start i :: tr) = callsOf tr := by
  simp [callsOf]

theorem callsOf_cons_complete {E V : Type} (i : Nat) (out : Except E V)
    (tr : List (Event E V)) :
    callsOf (Event.complete i out :: tr) = callsOf tr := by
  simp [callsOf]

theorem callsOf_cons_call {E V : Type} (r : Except E (List V))
    (tr : List (Event E V)) :
    callsOf (Event.callbackCall r :: tr) = r :: callsOf tr := by
  simp [callsOf]

theorem callsOf_runSeqFrom_length {E V : Type} :
    ∀ (tasks : List (Except E V)) (i : Nat) (acc : List V),
      (callsOf (runSeqFrom tasks i acc)).length = 1 := by
  intro tasks
  induction tasks with
  | nil => intro i acc; rfl
  | cons t rest ih =>
    intro i acc
    cases t with
    | error e => rfl
    | ok v =>
      rw [runSeqFrom_cons_ok, callsOf_cons_start, callsOf_cons_complete]
      exact ih (i + 1) (acc ++ [v])

theorem callsOf_runSeqFrom_all_ok {E V : Type} :
    ∀ (vs : List V) (i : Nat) (acc : List V),
      callsOf (runSeqFrom ((vs.map Except.ok : List (Except E V))) i acc) =
        [Except.ok (acc ++ vs)] := by
  intro vs
  induction vs with
  | nil => intro i acc; simp [runSeqFrom_nil, callsOf]
  | cons v vs ih =>
    intro i acc
    rw [List.map_cons, runSeqFrom_cons_ok, callsOf_cons_start,
      callsOf_cons_complete, ih]
    simp

theorem callsOf_runSeqFrom_first_error {E V : Type} :
    ∀ (pre : List V) (e : E) (post : List (Except E V)) (i : Nat)
      (acc : List V),
      callsOf
        (runSeqFrom (pre.map Except.ok ++ Except.error e :: post) i acc) =
        [Except.error e] := by
  intro pre
  induction pre with
  | nil => intro e post i acc; simp [runSeqFrom_cons_error, callsOf]
  | cons v pre ih =>
    intro e post i acc
    rw [List.map_cons, List.cons_append, runSeqFrom_cons_ok,
      callsOf_cons_start, callsOf_cons_complete, ih]

theorem start_not_mem_runSeqFrom_after_error {E V : Type} :
    ∀ (pre : List V) (e : E) (post : List (Except E V)) (i : Nat)
      (acc : List V) (k : Nat),
      i + pre.length < k →
      Event.start k ∉
        runSeqFrom (pre.map Except.ok ++ Except.error e :: post) i acc := by
  intro pre
  induction pre with
  | nil =>
    intro e post i acc k hk hmem
    rw [List.map_nil, List.nil_append, runSeqFrom_cons_error] at hmem
    simp at hmem
    simp at hk
    omega
  | cons v pre ih =>
    intro e post i acc k hk hmem
    rw [List.map_cons, List.cons_append, runSeqFrom_cons_ok] at hmem
    simp at hk
    rcases List.mem_cons.mp hmem with h1 | h2
    · injection h1 with hki
      omega
    · rcases List.mem_cons.mp h2 with h3 | h4
      · exact Event.noConfusion h3
      · exact ih e post (i + 1) (acc ++ [v]) k (by omega) h4

theorem inFlightBound_runSeqFrom {E V : Type} :
    ∀ (tasks : List (Except E V)) (i : Nat) (acc : List V),
      inFlightBound (runSeqFrom tasks i acc) 0 = true := by
  intro tasks
  induction tasks with
  | nil => intro i acc; rfl
  | cons t rest ih =>
    intro i acc
    cases t with
    | error e => rfl
    | ok v =>
      rw [runSeqFrom_cons_ok]
      simp [inFlightBound, ih]

theorem complete_before_start_runSeqFrom {E V : Type} :
    ∀ (tasks : List (Except E V)) (i : Nat) (acc : List V) (n j : Nat),
      i ≤ j →
      Event.start (j + 1) ∈ (runSeqFrom tasks i acc).take n →
      ∃ out, Event.complete j out ∈ (runSeqFrom tasks i acc).take n := by
  intro tasks
  induction tasks with
  | nil =>
    intro i acc n j _ hmem
    exfalso
    have hmem' := List.take_subset n _ hmem
    rw [runSeqFrom_nil] at hmem'
    simp at hmem'
  | cons t rest ih =>
    intro i acc n j hij hmem
    cases t with
    | error e =>
      exfalso
      have hmem' := List.take_subset n _ hmem
      rw [runSeqFrom_cons_error] at hmem'
      simp at hmem'
      omega
    | ok v =>
      rw [runSeqFrom_cons_ok] at hmem ⊢
      cases n with
      | zero => simp at hmem
      | succ m =>
        cases m with
        | zero =>
          rw [List.take_succ_cons, List.take_zero] at hmem
          simp at hmem
          omega
        | succ m =>
          rw [List.take_succ_cons, List.take_succ_cons] at hmem ⊢
          rcases Nat.eq_or_lt_of_le hij with heq | hlt
          · subst heq
            exact ⟨Except.ok v, by simp⟩
          · rcases List.mem_cons.mp hmem with h1 | h2
            · injection h1 with hcon; omega
            · rcases List.mem_cons.mp h2 with h3 | h4
              · exact Event.noConfusion h3
              · obtain ⟨out, hout⟩ :=
                  ih (i + 1) (acc ++ [v]) m j (by omega) h4
                exact ⟨out, List.mem_cons_of_mem _
                  (List.mem_cons_of_mem _ hout)⟩

/-! ### Lemmas for the parallel trace -/

theorem runParallelTrace_take {E V : Type} (tasks : List (SimTask E V)) :
    (runParallelTrace tasks).take tasks.length =
      (List.range tasks.length).map Event.start := by
  rw [runParallelTrace, List.take_left' (by simp)]
  rw [← List.enum_map_fst tasks, List.map_map]
  rfl

theorem runParallelTrace_drop {E V : Type} (tasks : List (SimTask E V)) :
    (runParallelTrace tasks).drop tasks.length =
      (fireOrder tasks.enum).map (fun p => Event.complete p.1 p.2.outcome) := by
  rw [runParallelTrace, List.drop_left' (by simp)]

/-! ### Claim theorems -/

/-- C1: the claim asserts that `runTasksInParallel` reports success results
ordered by the tasks' original input positions — `Ok(["A","B","C"])` for the
1000 ms/500 ms/1500 ms scenario.  The code refutes this: `results.push`
collects values in completion order (B, A, C), so the single reported call
is `Ok(["B","A","C"])`, contradicting the claim and the example's own
documented output. -/
theorem runTasksInParallel_scenario_pushes_completion_order :
    (runTasksInParallel scenarioTasks).callbackCalls =
      [Except.ok ["B", "A", "C"]] ∧
    (runTasksInParallel scenarioTasks).callbackCalls ≠
      [Except.ok ["A", "B", "C"]] := by
  decide

/-- C2 counterexample: a run with two failing tasks (500 ms, 1000 ms) and a
succeeding one (1500 ms) invokes the final callback twice — there is no
one-shot guard — refuting "onDone is invoked exactly once per Run". -/
theorem runTasksInParallel_two_failures_callback_twice :
    (runTasksInParallel twoFailuresOneSuccess).callbackCalls.length = 2 ∧
    (runTasksInParallel twoFailuresOneSuccess).callbackCalls.length ≠ 1 := by
  decide

/-- C2 (amended): a sequential run always invokes the final continuation
exactly once.  A parallel run (each task completing exactly once, in any
arrival order) invokes it exactly as many times as: zero for the empty run,
one for a non-empty run in which no task fails, and the number of failing
tasks when at least one fails — so "exactly once" holds precisely when the
run is non-empty and at most one task fails, and a run with two or more
failures invokes it more than once. -/
theorem orchestrator_callback_count {E V : Type}
    (tasks : List (Except E V)) (evs : List (Except E V)) :
    (seqCalls tasks).length = 1 ∧
    (processEvents (initState evs.length) evs).callbackCalls.length =
      (if countErrors evs = 0 then (if evs.length = 0 then 0 else 1)
        else countErrors evs) := by
  constructor
  · exact callsOf_runSeqFrom_length tasks 0 []
  · have hcount := countOks_add_countErrors evs
    by_cases hz : countErrors evs = 0
    · rw [if_pos hz]
      by_cases hnil : evs = []
      · subst hnil
        rfl
      · have h : 0 < evs.length := by
          cases evs with
          | nil => exact absurd rfl hnil
          | cons ev rest => simp
        rw [if_neg (by omega)]
        have hevs := eq_map_ok_of_countErrors_zero evs hz
        have hlen : (okValues evs).length = evs.length := by
          have : countOks evs = (okValues evs).length := rfl
          omega
        have hne : okValues evs ≠ [] := by
          intro hc
          rw [hc] at hlen
          simp at hlen
          omega
        rw [hevs]
        rw [processEvents_all_ok (okValues evs) _ hne (by simp [initState])]
        simp [initState]
    · rw [if_neg hz]
      have hlt : (initState evs.length : RunState E V).completedTasks +
          countOks evs <
          (initState evs.length : RunState E V).totalTasks := by
        simp [initState]
        omega
      rw [processEvents_callbackCalls_lt evs _ hlt]
      simp [initState, countErrors]

/-- C3 counterexample: with two failing tasks the 500 ms failure is reported
first, but the 1000 ms failure is *also* reported — later failures are not
silently ignored, so `onDone` is not called exactly once. -/
theorem runTasksInParallel_second_failure_reported_again :
    (runTasksInParallel twoFailures).callbackCalls =
      [Except.error "boom", Except.error "crash"] ∧
    (runTasksInParallel twoFailures).callbackCalls ≠
      [Except.error "boom"] := by
  decide

/-- C3 (amended): in a parallel run with at least one failure (each of the
`evs.length` tasks completing exactly once, in arrival order `evs`), the
final-callback invocations are exactly the error completions, verbatim and
in arrival order: the first invocation carries the first-arriving failure's
reason, no successful value is ever reported (the all-done success branch is
unreachable), later successes cause no invocation — but each later failure
re-invokes the callback instead of being ignored. -/
theorem runTasksInParallel_failure_calls_are_the_errors {E V : Type}
    (evs : List (Except E V)) (h : 1 ≤ countErrors evs) :
    (processEvents (initState evs.length) evs).callbackCalls =
      (errorsOf evs).map Except.error := by
  have hcount := countOks_add_countErrors evs
  have hlt : (initState evs.length : RunState E V).completedTasks +
      countOks evs < (initState evs.length : RunState E V).totalTasks := by
    simp [initState]
    omega
  rw [processEvents_callbackCalls_lt evs _ hlt]
  simp [initState]

/-- C3 witness: the amended failure-reporting theorem instantiated at a run
with a single failing task. -/
theorem runTasksInParallel_failure_calls_are_the_errors_witness :
    1 ≤ countErrors witnessErrEvs ∧
    (processEvents (initState witnessErrEvs.length)
        witnessErrEvs).callbackCalls =
      (errorsOf witnessErrEvs).map Except.error :=
  ⟨by decide,
    runTasksInParallel_failure_calls_are_the_errors witnessErrEvs (by decide)⟩

/-- C4 counterexample: generalizing the counting structure of
`runTasksInParallel` (whose `totalTasks` is hard-coded to 3) to an empty
task sequence, the final callback is never invoked at all — the
`completedTasks === totalTasks` check only runs inside `onTaskComplete`,
which never fires — rather than being invoked with `Ok` of the empty
sequence as the claim states. -/
theorem runTasksInParallel_empty_never_calls_back :
    (runTasksInParallel ([] : List (SimTask String String))).callbackCalls
      = [] ∧
    (runTasksInParallel ([] : List (SimTask String String))).callbackCalls
      ≠ [Except.ok ([] : List String)] := by
  decide

/-- C4 (amended): on the empty input sequence the sequential chain does
complete immediately with `Ok` of the empty sequence, but the parallel
runner's counter structure never invokes the final callback at all. -/
theorem empty_input_modes :
    seqCalls ([] : List (Except String String)) = [Except.ok []] ∧
    (runTasksInParallel ([] : List (SimTask String String))).callbackCalls
      = [] := by
  decide

/-- C5: for every input task sequence in which every task succeeds,
`runSequential` invokes the final continuation with `Ok` of the ordered
sequence of all the tasks' success values, one per task, in input order. -/
theorem runSequential_all_ok_reports_values_in_order {E V : Type}
    (vs : List V) :
    seqCalls ((vs.map Except.ok : List (Except E V))) = [Except.ok vs] := by
  have h := @callsOf_runSeqFrom_all_ok E V vs 0 []
  simpa [seqCalls, runSequential] using h

/-- C6: in sequential mode, execution halts at the first failing task in
input order: the final continuation is invoked exactly once with `Err` of
that task's reason verbatim, and any task strictly after the failing one is
never started. -/
theorem runSequential_first_failure_halts {E V : Type}
    (pre : List V) (e : E) (post : List (Except E V)) (k : Nat)
    (hk : pre.length < k) :
    seqCalls (pre.map Except.ok ++ Except.error e :: post) =
      [Except.error e] ∧
    Event.start k ∉
      runSequential (pre.map Except.ok ++ Except.error e :: post) :=
  ⟨callsOf_runSeqFrom_first_error pre e post 0 [],
    start_not_mem_runSeqFrom_after_error pre e post 0 [] k (by omega)⟩

/-- C6 witness: the halting theorem instantiated at one succeeding task
followed by a failing one and one more task, checking that task 2 never
starts. -/
theorem runSequential_first_failure_halts_witness :
    (["a"] : List String).length < 2 ∧
    (seqCalls (["a"].map Except.ok ++ Except.error "boom" ::
        [Except.ok "b"]) = [Except.error "boom"] ∧
      Event.start 2 ∉
        runSequential (["a"].map Except.ok ++ Except.error "boom" ::
          [Except.ok "b"])) :=
  ⟨by decide,
    runSequential_first_failure_halts ["a"] "boom" [Except.ok "b"] 2
      (by decide)⟩

/-- C7: in sequential mode, whenever task `j + 1` has started within any
prefix of the run's event trace, task `j`'s completion continuation has
already been invoked within that prefix; and at no point of the trace is
more than one task in flight. -/
theorem runSequential_serializes_tasks {E V : Type}
    (tasks : List (Except E V)) (j n : Nat)
    (h : Event.start (j + 1) ∈ (runSequential tasks).take n) :
    (∃ out, Event.complete j out ∈ (runSequential tasks).take n) ∧
    inFlightBound (runSequential tasks) 0 = true :=
  ⟨complete_before_start_runSeqFrom tasks 0 [] n j (Nat.zero_le j) h,
    inFlightBound_runSeqFrom tasks 0 []⟩

/-- C7 witness: the serialization theorem instantiated at two succeeding
tasks, with the prefix of length 3 in which task 1 has started. -/
theorem runSequential_serializes_tasks_witness :
    Event.start 1 ∈ (runSequential seqWitnessTasks).take 3 ∧
    ((∃ out, Event.complete 0 out ∈ (runSequential seqWitnessTasks).take 3) ∧
      inFlightBound (runSequential seqWitnessTasks) 0 = true) :=
  ⟨by decide, runSequential_serializes_tasks seqWitnessTasks 0 3 (by decide)⟩

/-- C8: in parallel mode every task is started during the invocation of the
runner itself: the first `tasks.length` events of the trace are exactly the
start events (so each task `i` starts there), and everything after them is
a completion event — all starts precede any completion processing. -/
theorem runParallelTrace_starts_all_before_completions {E V : Type}
    (tasks : List (SimTask E V)) (i : Nat) (h : i < tasks.length) :
    Event.start i ∈ (runParallelTrace tasks).take tasks.length ∧
    ∀ ev ∈ (runParallelTrace tasks).drop tasks.length,
      ∃ k out, ev = Event.complete k out := by
  constructor
  · rw [runParallelTrace_take]
    simp only [List.mem_map, List.mem_range]
    exact ⟨i, h, rfl⟩
  · intro ev hev
    rw [runParallelTrace_drop] at hev
    obtain ⟨p, hp, hpe⟩ := List.mem_map.mp hev
    exact ⟨p.1, p.2.outcome, hpe.symm⟩

/-- C8 witness: the starts-first theorem instantiated at the concrete
three-task scenario and task 0. -/
theorem runParallelTrace_starts_all_before_completions_witness :
    0 < scenarioTasks.length ∧
    (Event.start 0 ∈ (runParallelTrace scenarioTasks).take
        scenarioTasks.length ∧
      ∀ ev ∈ (runParallelTrace scenarioTasks).drop scenarioTasks.length,
        ∃ k out, ev = Event.complete k out) :=
  ⟨by decide,
    runParallelTrace_starts_all_before_completions scenarioTasks 0
      (by decide)⟩

/-- C9: in `runTasksInParallel`, an erroring completion returns before
pushing a result or incrementing `completedTasks`, so after the events of a
run containing at least one error (at most one completion per task), the
counter equals the number of successes, stays strictly below `totalTasks`,
the results hold only the pushed success values, and no `Ok` invocation of
the final callback ever happens. -/
theorem no_success_callback_after_error {E V : Type}
    (evs : List (Except E V)) (n : Nat) (hlen : evs.length ≤ n)
    (herr : 1 ≤ countErrors evs) :
    (processEvents (initState n) evs).completedTasks = countOks evs ∧
    (processEvents (initState n) evs).completedTasks < n ∧
    (processEvents (initState n) evs).results = okValues evs ∧
    ∀ r : List V,
      Except.ok r ∉ (processEvents (initState n) evs).callbackCalls := by
  have hcount := countOks_add_countErrors evs
  refine ⟨?_, ?_, ?_, ?_⟩
  · rw [processEvents_completedTasks]
    simp [initState]
  · rw [processEvents_completedTasks]
    simp [initState]
    omega
  · rw [processEvents_results]
    simp [initState]
  · intro r hr
    rw [processEvents_callbackCalls_lt evs _
      (by simp [initState]; omega)] at hr
    simp [initState] at hr

/-- C9 witness: the unreachable-success theorem instantiated at a run of
two tasks whose first completion errors. -/
theorem no_success_callback_after_error_witness :
    witnessMixedEvs.length ≤ 2 ∧ 1 ≤ countErrors witnessMixedEvs ∧
    ((processEvents (initState 2) witnessMixedEvs).completedTasks =
        countOks witnessMixedEvs ∧
      (processEvents (initState 2) witnessMixedEvs).completedTasks < 2 ∧
      (processEvents (initState 2) witnessMixedEvs).results =
        okValues witnessMixedEvs ∧
      ∀ r : List String,
        Except.ok r ∉
          (processEvents (initState 2) witnessMixedEvs).callbackCalls) :=
  ⟨by decide, by decide,
    no_success_callback_after_error witnessMixedEvs 2 (by decide) (by decide)⟩

/-- C10: `promisifiedAsyncFunction` mirrors the success/error split of
`asyncFunctionWithCallback`: for every argument it rejects exactly when the
argument is negative, with reason "Error: Argument must be non-negative",
and otherwise resolves with "Success: The result is " followed by twice the
argument. -/
theorem promisifiedAsyncFunction_mirrors_asyncFunctionWithCallback
    (a : Int) :
    promisifiedAsyncFunction a =
      (if a < 0 then Except.error "Error: Argument must be non-negative"
        else Except.ok ("Success: The result is " ++ toString (a * 2))) := by
  unfold promisifiedAsyncFunction asyncFunctionWithCallback
  split <;> rfl
